import Mathlib

/-!
Verification of the glossary search engine of `src/backend/app.py`
(module 4: glossary endpoints).

Strings are modelled as `List Char`, Python floats as `ℚ` (every score the
code manipulates is an exact decimal or a ratio of small integers, so the
rational model is exact for the comparisons the code performs).
-/

/-- Python `str.lower()` applied characterwise (ASCII case folding). -/
def pyLower (s : List Char) : List Char := s.map Char.toLower

/-- Python `str.strip()`: remove leading and trailing whitespace. -/
def pyStrip (s : List Char) : List Char :=
  ((s.dropWhile Char.isWhitespace).reverse.dropWhile Char.isWhitespace).reverse

/-- Length of the longest common prefix of two character lists. -/
def commonPrefixLen : List Char → List Char → Nat
  | x :: xs, y :: ys => if x = y then commonPrefixLen xs ys + 1 else 0
  | _, _ => 0

/-- Length of the matching run starting at positions `i` in `a` and `j` in `b`,
confined to the slices `a[i:ahi]` and `b[j:bhi]`. -/
def runLen (a b : List Char) (ahi bhi i j : Nat) : Nat :=
  commonPrefixLen ((a.take ahi).drop i) ((b.take bhi).drop j)

/-- One step of the longest-matching-block scan: keep the incumbent block unless
the block starting at the new candidate position is strictly longer. -/
def flmStep (a b : List Char) (ahi bhi : Nat)
    (best : Nat × Nat × Nat) (ij : Nat × Nat) : Nat × Nat × Nat :=
  if best.2.2 < runLen a b ahi bhi ij.1 ij.2 then (ij.1, ij.2, runLen a b ahi bhi ij.1 ij.2)
  else best

/-- Modelled from the spec: the longest-matching-block search of the standard
longest-common-matching-blocks algorithm (Python `difflib.SequenceMatcher`,
called by `fuzzy_match_score`; the stdlib implementation is not part of this
repository). Over the window `a[alo:ahi]` x `b[blo:bhi]` it returns the triple
`(i, j, k)`: the longest block with `a[i:i+k] = b[j:j+k]`, ties resolved in
favour of the block starting earliest in `a`, then earliest in `b`, and
`(alo, blo, 0)` when there is no match. The popularity ("autojunk") heuristic,
which only activates on candidate strings of 200 or more characters, is not
modelled. -/
def findLongestMatch (a b : List Char) (alo ahi blo bhi : Nat) : Nat × Nat × Nat :=
  (((List.range' alo (ahi - alo)).flatMap
      (fun i => (List.range' blo (bhi - blo)).map (fun j => (i, j)))).foldl
    (flmStep a b ahi bhi) (alo, blo, 0))

/-- Modelled from the spec: total number of matching characters reported by the
recursive longest-matching-block strategy (Python
`difflib.SequenceMatcher.get_matching_blocks`): take the longest block of the
window, then recurse on the sub-windows strictly before and strictly after it.
The fuel argument bounds the recursion depth; `a.length + 1` is always enough
because every recursive call strictly shrinks the `a`-window. -/
def matchingSumF (a b : List Char) : Nat → Nat → Nat → Nat → Nat → Nat
  | 0, _, _, _, _ => 0
  | fuel + 1, alo, ahi, blo, bhi =>
    match findLongestMatch a b alo ahi blo bhi with
    | (i, j, k) =>
      if k = 0 then 0
      else k + (if alo < i ∧ blo < j then matchingSumF a b fuel alo i blo j else 0)
             + (if i + k < ahi ∧ j + k < bhi then matchingSumF a b fuel (i + k) ahi (j + k) bhi
                else 0)

/-- Total matching characters between `a` and `b` (full windows). -/
def sequenceMatcherTotal (a b : List Char) : Nat :=
  matchingSumF a b (a.length + 1) 0 a.length 0 b.length

/-- Modelled from the spec: the classic sequence-similarity ratio
(Python `difflib.SequenceMatcher.ratio`): twice the number of matching
characters divided by the sum of the lengths, and 1 when both strings are
empty. -/
def sequenceRatio (a b : List Char) : ℚ :=
  if a.length + b.length = 0 then 1
  else 2 * (sequenceMatcherTotal a b : ℚ) / ((a.length + b.length : Nat) : ℚ)

/-- Python substring membership `needle in hay`: some suffix of `hay` starts
with `needle` (the empty string is contained in every string). -/
def pyContains (needle : List Char) : List Char → Bool
  | [] => needle.isEmpty
  | c :: rest => needle.isPrefixOf (c :: rest) || pyContains needle rest

/-- Embedding of `fuzzy_match_score` (src/backend/app.py, lines 521-539):
lower-case both strings, then: equal gives 1.0, a candidate starting with the
query gives 0.9, a candidate containing the query gives 0.7, otherwise the
`SequenceMatcher` similarity ratio. -/
def fuzzy_match_score (query text : List Char) : ℚ :=
  if pyLower query = pyLower text then 1
  else if (pyLower query).isPrefixOf (pyLower text) then 9/10
  else if pyContains (pyLower query) (pyLower text) then 7/10
  else sequenceRatio (pyLower query) (pyLower text)

example : fuzzy_match_score "Wafer".toList "wafer".toList = 1 := by decide
example : fuzzy_match_score "waf".toList "Wafer".toList = 9/10 := by
  rw [fuzzy_match_score, if_neg (by decide), if_pos (by decide)]
example : fuzzy_match_score "slice".toList "a thin slice".toList = 7/10 := by
  rw [fuzzy_match_score, if_neg (by decide), if_neg (by decide), if_pos (by decide)]
example : sequenceMatcherTotal "ab".toList "ca".toList = 1 := by decide
example : fuzzy_match_score "ab".toList "ca".toList = 1/2 := by
  rw [fuzzy_match_score, if_neg (by decide), if_neg (by decide), if_neg (by decide),
    sequenceRatio, if_neg (by decide),
    show sequenceMatcherTotal (pyLower "ab".toList) (pyLower "ca".toList) = 1 from by decide]
  norm_num [pyLower]

/-- A glossary entry, as stored in `data/glossary_terms.json` and consumed by
the endpoints: identifier, headword, two definition strings, and a category
label. The stored record has no match score. -/
structure Term where
  id : List Char
  term : List Char
  shortDefinition : List Char
  detailedDefinition : List Char
  category : List Char
deriving DecidableEq

/-- The loaded corpus `GLOSSARY_DATA`: a term list and a category list. -/
structure GlossaryData where
  terms : List Term
  categories : List (List Char)
deriving DecidableEq

/-- Outcome of loading the glossary file at startup (src/backend/app.py,
lines 512-518): `none` models the `except` path (the file failed to load or
parse), `some gd` a successful `json.load`. On failure the code assigns the
empty corpus instead of crashing. -/
def glossaryFromLoad : Option GlossaryData → GlossaryData
  | none => ⟨[], []⟩
  | some gd => gd

/-- A search hit as built by `search_glossary`: the spread of the stored term
record plus the transient `matchScore` key. -/
structure ScoredTerm where
  term : Term
  matchScore : ℚ
deriving DecidableEq

/-- Response of the search endpoint: the 500 error when the corpus is
unavailable, the raw term list (no scores) for the empty-query fallback, or
the scored and ranked hit list; the two success shapes both carry the full
category list. -/
inductive SearchResult where
  | unavailable : SearchResult
  | listing : List Term → List (List Char) → SearchResult
  | scored : List ScoredTerm → List (List Char) → SearchResult
deriving DecidableEq

/-- Response of the term-detail endpoint: 500 when the corpus is unavailable,
404 when no term has the requested id, or the found term. -/
inductive GetTermResult where
  | unavailable : GetTermResult
  | notFound : GetTermResult
  | found : Term → GetTermResult
deriving DecidableEq

/-- Ordering used for ranking: `a` may precede `b` when `b`'s score does not
exceed `a`'s (descending by `matchScore`). -/
def scoreOrder (a b : ScoredTerm) : Bool := decide (b.matchScore ≤ a.matchScore)

/-- Python `results.sort(key=lambda x: x["matchScore"], reverse=True)`:
a stable sort, descending by score. Any stable descending sort computes the
same list; we use `List.mergeSort`, which is stable. -/
def sortScored (l : List ScoredTerm) : List ScoredTerm := l.mergeSort scoreOrder

/-- Embedding of the scoring loop of `search_glossary`
(src/backend/app.py, lines 570-589), for an already stripped query and
category: skip terms failing the category filter, score the three fields
(weights 1.0, 0.7, 0.5), keep the maximum, and retain the term only when the
maximum exceeds 0.3. Corpus order is preserved. -/
def survivors (gd : GlossaryData) (query category : List Char) : List ScoredTerm :=
  gd.terms.filterMap (fun term =>
    if category ≠ [] ∧ term.category ≠ category then none
    else
      if max (max (fuzzy_match_score query term.term)
                  (fuzzy_match_score query term.shortDefinition * (7/10)))
             (fuzzy_match_score query term.detailedDefinition * (5/10)) > 3/10 then
        some ⟨term, max (max (fuzzy_match_score query term.term)
                            (fuzzy_match_score query term.shortDefinition * (7/10)))
                        (fuzzy_match_score query term.detailedDefinition * (5/10))⟩
      else none)

/-- Embedding of the `/api/glossary/search` handler
(src/backend/app.py, lines 541-603): strip the query and category; 500 when
the term list is empty; with an empty stripped query return the (optionally
category-filtered) term list unscored; otherwise score, filter, stable-sort
descending and truncate to 20. -/
def search_glossary (gd : GlossaryData) (q cat : List Char) : SearchResult :=
  if gd.terms = [] then .unavailable
  else if pyStrip q = [] then
    .listing (if pyStrip cat ≠ [] then
                gd.terms.filter (fun t => decide (t.category = pyStrip cat))
              else gd.terms)
             gd.categories
  else .scored ((sortScored (survivors gd (pyStrip q) (pyStrip cat))).take 20) gd.categories

/-- Embedding of the `/api/glossary/term/<term_id>` handler
(src/backend/app.py, lines 606-628): 500 when the term list is empty,
otherwise the first term whose `id` equals the requested one, or 404 when
there is none. -/
def get_term (gd : GlossaryData) (term_id : List Char) : GetTermResult :=
  if gd.terms = [] then .unavailable
  else
    match gd.terms.find? (fun t => decide (t.id = term_id)) with
    | some t => .found t
    | none => .notFound

/-- Modelled from the spec: the `listTerms(category?)` operation of section
4.1 has no standalone implementation in the repository. Following the spec's
words: if the category is absent or empty, return all terms in corpus order;
if present, return only the terms whose category equals it exactly
(case-sensitive exact match), in corpus order, together with the full set of
known categories; no error conditions (an unknown category simply yields an
empty sequence). -/
def listTerms_spec (gd : GlossaryData) (cat : List Char) : SearchResult :=
  .listing (if cat ≠ [] then
              gd.terms.filter (fun t => decide (t.category = cat))
            else gd.terms)
           gd.categories

/-- The list of term records carried by a successful search response
(for the scored shape, the stored part of each hit), `none` for the error
response. -/
def returnedTerms : SearchResult → Option (List Term)
  | .unavailable => none
  | .listing ts _ => some ts
  | .scored rs _ => some (rs.map ScoredTerm.term)

/-- A request to one of the two glossary endpoints. -/
inductive Request where
  | searchReq : List Char → List Char → Request
  | termReq : List Char → Request

/-- A response from one of the two glossary endpoints. -/
inductive Response where
  | searchResp : SearchResult → Response
  | termResp : GetTermResult → Response

/-- One request handled against the process-wide glossary state. Neither
handler assigns `GLOSSARY_DATA` or writes into a stored term record (hits are
built as fresh `{**term, "matchScore": ...}` records and sorting happens on
the fresh result list), so the state after the call is the state before it. -/
def handle (gd : GlossaryData) : Request → GlossaryData × Response
  | .searchReq q cat => (gd, .searchResp (search_glossary gd q cat))
  | .termReq i => (gd, .termResp (get_term gd i))

/-- The glossary state after serving a sequence of requests. -/
def runRequests (gd : GlossaryData) (reqs : List Request) : GlossaryData :=
  reqs.foldl (fun s r => (handle s r).1) gd

/-! Helper lemmas about the matching-blocks machinery, leading to the bound
`2 * sequenceMatcherTotal a b ≤ a.length + b.length` and hence to
`sequenceRatio a b ∈ [0, 1]`. -/

theorem commonPrefixLen_le_left : ∀ xs ys : List Char, commonPrefixLen xs ys ≤ xs.length := by
  intro xs
  induction xs with
  | nil => intro ys; cases ys <;> simp [commonPrefixLen]
  | cons x xs ih =>
    intro ys
    cases ys with
    | nil => simp [commonPrefixLen]
    | cons y ys =>
      by_cases h : x = y
      · simpa [commonPrefixLen, h] using ih ys
      · simp [commonPrefixLen, h]

theorem commonPrefixLen_le_right : ∀ xs ys : List Char, commonPrefixLen xs ys ≤ ys.length := by
  intro xs
  induction xs with
  | nil => intro ys; cases ys <;> simp [commonPrefixLen]
  | cons x xs ih =>
    intro ys
    cases ys with
    | nil => simp [commonPrefixLen]
    | cons y ys =>
      by_cases h : x = y
      · simpa [commonPrefixLen, h] using ih ys
      · simp [commonPrefixLen, h]

theorem runLen_le_a (a b : List Char) (ahi bhi i j : Nat) :
    i + runLen a b ahi bhi i j ≤ ahi ∨ runLen a b ahi bhi i j = 0 := by
  by_cases hi : i < ahi
  · left
    have h := commonPrefixLen_le_left ((a.take ahi).drop i) ((b.take bhi).drop j)
    by_cases ha : ahi ≤ a.length
    · simp only [List.length_drop, List.length_take] at h
      unfold runLen
      omega
    · -- here the window is cut off by the end of `a` itself
      have h2 : ((a.take ahi).drop i).length = min ahi a.length - i := by
        simp [List.length_drop, List.length_take]
      unfold runLen
      omega
  · right
    have hdrop : (a.take ahi).drop i = [] := by
      apply List.drop_eq_nil_of_le
      simp [List.length_take]
      omega
    unfold runLen
    rw [hdrop]
    cases (b.take bhi).drop j <;> simp [commonPrefixLen]

theorem runLen_le_b (a b : List Char) (ahi bhi i j : Nat) :
    j + runLen a b ahi bhi i j ≤ bhi ∨ runLen a b ahi bhi i j = 0 := by
  by_cases hj : j < bhi
  · left
    have h := commonPrefixLen_le_right ((a.take ahi).drop i) ((b.take bhi).drop j)
    have h2 : ((b.take bhi).drop j).length = min bhi b.length - j := by
      simp [List.length_drop, List.length_take]
    unfold runLen
    omega
  · right
    have hdrop : (b.take bhi).drop j = [] := by
      apply List.drop_eq_nil_of_le
      simp [List.length_take]
      omega
    unfold runLen
    rw [hdrop]
    cases (a.take ahi).drop i <;> simp [commonPrefixLen]

/-- Invariant carried through the longest-match scan: the incumbent block lies
inside the window. -/
def flmInv (alo ahi blo bhi : Nat) (t : Nat × Nat × Nat) : Prop :=
  alo ≤ t.1 ∧ blo ≤ t.2.1 ∧ t.1 + t.2.2 ≤ ahi ∧ t.2.1 + t.2.2 ≤ bhi

theorem foldl_preserve {α β : Type} {P : β → Prop} (f : β → α → β) :
    ∀ (l : List α) (init : β), P init → (∀ x ∈ l, ∀ s, P s → P (f s x)) →
      P (l.foldl f init)
  | [], _, h, _ => h
  | x :: xs, init, h, hstep =>
    foldl_preserve f xs (f init x) (hstep x (by simp) init h)
      (fun y hy s hs => hstep y (by simp [hy]) s hs)

theorem findLongestMatch_bounds (a b : List Char) (alo ahi blo bhi : Nat)
    (ha : alo ≤ ahi) (hb : blo ≤ bhi) :
    flmInv alo ahi blo bhi (findLongestMatch a b alo ahi blo bhi) := by
  unfold findLongestMatch
  apply foldl_preserve
  · refine ⟨le_refl _, le_refl _, ?_, ?_⟩ <;> simp <;> omega
  · intro x hx s hs
    simp only [List.mem_flatMap, List.mem_map] at hx
    obtain ⟨i, hi, j, hj, hxe⟩ := hx
    rw [List.mem_range'_1] at hi hj
    unfold flmStep
    split
    · subst hxe
      simp only [flmInv]
      refine ⟨by omega, by omega, ?_, ?_⟩
      · rcases runLen_le_a a b ahi bhi i j with h | h
        · simpa using h
        · simp [h]; omega
      · rcases runLen_le_b a b ahi bhi i j with h | h
        · simpa using h
        · simp [h]; omega
    · exact hs

theorem matchingSumF_le_a (a b : List Char) :
    ∀ (fuel alo ahi blo bhi : Nat), alo ≤ ahi → blo ≤ bhi →
      matchingSumF a b fuel alo ahi blo bhi ≤ ahi - alo := by
  intro fuel
  induction fuel with
  | zero => intro alo ahi blo bhi _ _; simp [matchingSumF]
  | succ n ih =>
    intro alo ahi blo bhi ha hb
    have hB := findLongestMatch_bounds a b alo ahi blo bhi ha hb
    rcases hflm : findLongestMatch a b alo ahi blo bhi with ⟨i, j, k⟩
    rw [hflm] at hB
    simp only [flmInv] at hB
    obtain ⟨h1, h2, h3, h4⟩ := hB
    simp only [matchingSumF, hflm]
    by_cases hk : k = 0
    · simp [hk]
    · rw [if_neg hk]
      have hL : (if alo < i ∧ blo < j then matchingSumF a b n alo i blo j else 0) ≤ i - alo := by
        split
        · exact ih alo i blo j (by omega) (by omega)
        · omega
      have hR : (if i + k < ahi ∧ j + k < bhi then
          matchingSumF a b n (i + k) ahi (j + k) bhi else 0) ≤ ahi - (i + k) := by
        split
        · exact ih (i + k) ahi (j + k) bhi (by omega) (by omega)
        · omega
      omega

theorem matchingSumF_le_b (a b : List Char) :
    ∀ (fuel alo ahi blo bhi : Nat), alo ≤ ahi → blo ≤ bhi →
      matchingSumF a b fuel alo ahi blo bhi ≤ bhi - blo := by
  intro fuel
  induction fuel with
  | zero => intro alo ahi blo bhi _ _; simp [matchingSumF]
  | succ n ih =>
    intro alo ahi blo bhi ha hb
    have hB := findLongestMatch_bounds a b alo ahi blo bhi ha hb
    rcases hflm : findLongestMatch a b alo ahi blo bhi with ⟨i, j, k⟩
    rw [hflm] at hB
    simp only [flmInv] at hB
    obtain ⟨h1, h2, h3, h4⟩ := hB
    simp only [matchingSumF, hflm]
    by_cases hk : k = 0
    · simp [hk]
    · rw [if_neg hk]
      have hL : (if alo < i ∧ blo < j then matchingSumF a b n alo i blo j else 0) ≤ j - blo := by
        split
        · exact ih alo i blo j (by omega) (by omega)
        · omega
      have hR : (if i + k < ahi ∧ j + k < bhi then
          matchingSumF a b n (i + k) ahi (j + k) bhi else 0) ≤ bhi - (j + k) := by
        split
        · exact ih (i + k) ahi (j + k) bhi (by omega) (by omega)
        · omega
      omega

theorem two_mul_sequenceMatcherTotal_le (a b : List Char) :
    2 * sequenceMatcherTotal a b ≤ a.length + b.length := by
  have h1 := matchingSumF_le_a a b (a.length + 1) 0 a.length 0 b.length
    (Nat.zero_le _) (Nat.zero_le _)
  have h2 := matchingSumF_le_b a b (a.length + 1) 0 a.length 0 b.length
    (Nat.zero_le _) (Nat.zero_le _)
  unfold sequenceMatcherTotal
  omega

theorem sequenceRatio_nonneg (a b : List Char) : 0 ≤ sequenceRatio a b := by
  unfold sequenceRatio
  split
  · norm_num
  · positivity

theorem sequenceRatio_le_one (a b : List Char) : sequenceRatio a b ≤ 1 := by
  unfold sequenceRatio
  split
  · norm_num
  · rename_i h
    rw [div_le_one (by positivity)]
    have h := two_mul_sequenceMatcherTotal_le a b
    exact_mod_cast h

/-- C1: for every query string Q and candidate string T, the fuzzy match
score, computed on the lower-cased forms, follows the stated precedence: if Q
equals T the score is 1.0; otherwise if T starts with Q the score is 0.9;
otherwise if T contains Q as a substring the score is 0.7; otherwise the score
is the longest-common-matching-blocks similarity ratio, twice the number of
matching characters divided by the sum of the two strings' lengths, a value in
[0, 1]. -/
theorem fuzzy_match_score_precedence (q t : List Char) :
    (pyLower q = pyLower t → fuzzy_match_score q t = 1) ∧
    (pyLower q ≠ pyLower t → (pyLower q).isPrefixOf (pyLower t) = true →
      fuzzy_match_score q t = 9/10) ∧
    (pyLower q ≠ pyLower t → (pyLower q).isPrefixOf (pyLower t) = false →
      pyContains (pyLower q) (pyLower t) = true → fuzzy_match_score q t = 7/10) ∧
    (pyLower q ≠ pyLower t → (pyLower q).isPrefixOf (pyLower t) = false →
      pyContains (pyLower q) (pyLower t) = false →
      fuzzy_match_score q t =
        2 * (sequenceMatcherTotal (pyLower q) (pyLower t) : ℚ) /
          ((((pyLower q).length + (pyLower t).length : Nat)) : ℚ) ∧
      0 ≤ fuzzy_match_score q t ∧ fuzzy_match_score q t ≤ 1) := by
  refine ⟨?_, ?_, ?_, ?_⟩
  · intro h
    rw [fuzzy_match_score, if_pos h]
  · intro h hp
    rw [fuzzy_match_score, if_neg h, if_pos hp]
  · intro h hp hc
    rw [fuzzy_match_score, if_neg h, if_neg (by simp [hp]), if_pos hc]
  · intro h hp hc
    have hfm : fuzzy_match_score q t = sequenceRatio (pyLower q) (pyLower t) := by
      rw [fuzzy_match_score, if_neg h, if_neg (by simp [hp]), if_neg (by simp [hc])]
    have hlen : (pyLower q).length + (pyLower t).length ≠ 0 := by
      intro h0
      apply h
      have hq : pyLower q = [] := List.eq_nil_of_length_eq_zero (by omega)
      have ht : pyLower t = [] := List.eq_nil_of_length_eq_zero (by omega)
      rw [hq, ht]
    refine ⟨?_, ?_, ?_⟩
    · rw [hfm, sequenceRatio, if_neg hlen]
    · rw [hfm]; exact sequenceRatio_nonneg _ _
    · rw [hfm]; exact sequenceRatio_le_one _ _

/-- Witness for C1: the strings "ab" and "ca" land in the ratio branch, where
the score is twice the matching characters (one, the common "a") over the
length sum (four). -/
theorem fuzzy_match_score_precedence_inst :
    (pyLower "ab".toList ≠ pyLower "ca".toList ∧
     (pyLower "ab".toList).isPrefixOf (pyLower "ca".toList) = false ∧
     pyContains (pyLower "ab".toList) (pyLower "ca".toList) = false) ∧
    (fuzzy_match_score "ab".toList "ca".toList =
        2 * (sequenceMatcherTotal (pyLower "ab".toList) (pyLower "ca".toList) : ℚ) /
          ((((pyLower "ab".toList).length + (pyLower "ca".toList).length : Nat)) : ℚ) ∧
      0 ≤ fuzzy_match_score "ab".toList "ca".toList ∧
      fuzzy_match_score "ab".toList "ca".toList ≤ 1) :=
  ⟨⟨by decide, by decide, by decide⟩,
    (fuzzy_match_score_precedence "ab".toList "ca".toList).2.2.2
      (by decide) (by decide) (by decide)⟩

/-! Helper lemmas about the search pipeline. -/

theorem search_scored_inv {gd : GlossaryData} {q cat : List Char}
    {rs : List ScoredTerm} {cats : List (List Char)}
    (h : search_glossary gd q cat = .scored rs cats) :
    gd.terms ≠ [] ∧ pyStrip q ≠ [] ∧
    rs = (sortScored (survivors gd (pyStrip q) (pyStrip cat))).take 20 ∧
    cats = gd.categories := by
  unfold search_glossary at h
  by_cases h1 : gd.terms = []
  · rw [if_pos h1] at h; cases h
  · rw [if_neg h1] at h
    by_cases h2 : pyStrip q = []
    · rw [if_pos h2] at h; cases h
    · rw [if_neg h2] at h
      cases h
      exact ⟨h1, h2, rfl, rfl⟩

theorem search_listing_inv {gd : GlossaryData} {q cat : List Char}
    {ts : List Term} {cats : List (List Char)}
    (h : search_glossary gd q cat = .listing ts cats) :
    gd.terms ≠ [] ∧ pyStrip q = [] ∧
    ts = (if pyStrip cat ≠ [] then
            gd.terms.filter (fun t => decide (t.category = pyStrip cat))
          else gd.terms) ∧
    cats = gd.categories := by
  unfold search_glossary at h
  by_cases h1 : gd.terms = []
  · rw [if_pos h1] at h; cases h
  · rw [if_neg h1] at h
    by_cases h2 : pyStrip q = []
    · rw [if_pos h2] at h
      cases h
      exact ⟨h1, h2, rfl, rfl⟩
    · rw [if_neg h2] at h; cases h

theorem of_mem_survivors {gd : GlossaryData} {query category : List Char} {r : ScoredTerm}
    (h : r ∈ survivors gd query category) :
    r.term ∈ gd.terms ∧
    r.matchScore = max (max (fuzzy_match_score query r.term.term)
        (fuzzy_match_score query r.term.shortDefinition * (7/10)))
      (fuzzy_match_score query r.term.detailedDefinition * (5/10)) ∧
    3/10 < r.matchScore ∧
    (category ≠ [] → r.term.category = category) := by
  simp only [survivors, List.mem_filterMap] at h
  obtain ⟨t, ht, hf⟩ := h
  by_cases hskip : category ≠ [] ∧ t.category ≠ category
  · rw [if_pos hskip] at hf; cases hf
  · rw [if_neg hskip] at hf
    by_cases hthr : max (max (fuzzy_match_score query t.term)
        (fuzzy_match_score query t.shortDefinition * (7/10)))
      (fuzzy_match_score query t.detailedDefinition * (5/10)) > 3/10
    · rw [if_pos hthr] at hf
      cases hf
      push_neg at hskip
      exact ⟨ht, rfl, hthr, fun hcat => hskip hcat⟩
    · rw [if_neg hthr] at hf; cases hf

theorem mem_scored_results {gd : GlossaryData} {q cat : List Char}
    {rs : List ScoredTerm} {cats : List (List Char)} {r : ScoredTerm}
    (h : search_glossary gd q cat = .scored rs cats) (hr : r ∈ rs) :
    r ∈ survivors gd (pyStrip q) (pyStrip cat) := by
  obtain ⟨-, -, hrs, -⟩ := search_scored_inv h
  subst hrs
  have h1 : r ∈ sortScored (survivors gd (pyStrip q) (pyStrip cat)) :=
    List.mem_of_mem_take hr
  rw [sortScored, List.mem_mergeSort] at h1
  exact h1

theorem scoreOrder_trans : ∀ a b c : ScoredTerm,
    scoreOrder a b → scoreOrder b c → scoreOrder a c := by
  intro a b c h1 h2
  simp only [scoreOrder, decide_eq_true_eq] at *
  exact le_trans h2 h1

theorem scoreOrder_total : ∀ a b : ScoredTerm, scoreOrder a b || scoreOrder b a := by
  intro a b
  simp only [scoreOrder, Bool.or_eq_true, decide_eq_true_eq]
  exact le_total b.matchScore a.matchScore

theorem pairwise_of_mem {α : Type} {R : α → α → Prop} :
    ∀ l : List α, (∀ x ∈ l, ∀ y ∈ l, R x y) → l.Pairwise R
  | [], _ => List.Pairwise.nil
  | x :: xs, h =>
    List.Pairwise.cons (fun y hy => h x (by simp) y (by simp [hy]))
      (pairwise_of_mem xs (fun a ha b hb => h a (by simp [ha]) b (by simp [hb])))

theorem sortScored_sorted (l : List ScoredTerm) :
    (sortScored l).Pairwise (fun a b => b.matchScore ≤ a.matchScore) := by
  have h := List.sorted_mergeSort scoreOrder_trans scoreOrder_total l
  exact h.imp (fun hab => by simpa [scoreOrder, decide_eq_true_eq] using hab)

theorem sortScored_filter_eq (l : List ScoredTerm) (s : ℚ) :
    (sortScored l).filter (fun r => decide (r.matchScore = s)) =
      l.filter (fun r => decide (r.matchScore = s)) := by
  have hpair : (l.filter (fun r => decide (r.matchScore = s))).Pairwise
      (fun a b => scoreOrder a b = true) := by
    apply pairwise_of_mem
    intro x hx y hy
    rw [List.mem_filter] at hx hy
    have hxs : x.matchScore = s := by simpa using hx.2
    have hys : y.matchScore = s := by simpa using hy.2
    simp [scoreOrder, hxs, hys]
  have h1 : List.Sublist (l.filter (fun r => decide (r.matchScore = s))) (sortScored l) :=
    List.sublist_mergeSort scoreOrder_trans scoreOrder_total hpair (List.filter_sublist l)
  have h2 := h1.filter (fun r => decide (r.matchScore = s))
  rw [List.filter_filter] at h2
  simp only [Bool.and_self] at h2
  have h3 : List.Perm ((sortScored l).filter (fun r => decide (r.matchScore = s)))
      (l.filter (fun r => decide (r.matchScore = s))) :=
    (List.mergeSort_perm l scoreOrder).filter _
  exact (h2.eq_of_length h3.length_eq.symm).symm

theorem filterMap_map_term_sublist (f : Term → Option ScoredTerm)
    (hf : ∀ t r, f t = some r → r.term = t) :
    ∀ l : List Term, List.Sublist ((l.filterMap f).map ScoredTerm.term) l
  | [] => by simp
  | t :: l => by
    cases hft : f t with
    | none =>
      simpa [List.filterMap_cons, hft] using
        (filterMap_map_term_sublist f hf l).cons t
    | some r =>
      have hrt := hf t r hft
      simp only [List.filterMap_cons, hft, List.map_cons, hrt]
      exact (filterMap_map_term_sublist f hf l).cons₂ t

theorem survivors_map_sublist (gd : GlossaryData) (query category : List Char) :
    List.Sublist ((survivors gd query category).map ScoredTerm.term) gd.terms := by
  unfold survivors
  apply filterMap_map_term_sublist
  intro t r h
  by_cases hskip : category ≠ [] ∧ t.category ≠ category
  · rw [if_pos hskip] at h; cases h
  · rw [if_neg hskip] at h
    by_cases hthr : max (max (fuzzy_match_score query t.term)
        (fuzzy_match_score query t.shortDefinition * (7/10)))
      (fuzzy_match_score query t.detailedDefinition * (5/10)) > 3/10
    · rw [if_pos hthr] at h; cases h; rfl
    · rw [if_neg hthr] at h; cases h

/-! Concrete corpora used by witnesses and counterexamples. -/

/-- A term whose headword and both definitions are the single letter a. -/
def tA : Term := ⟨['1'], ['a'], ['a'], ['a'], ['x']⟩

/-- A second such term in a different category. -/
def tB : Term := ⟨['2'], ['a'], ['a'], ['a'], ['y']⟩

/-- A two-term corpus. -/
def gdW : GlossaryData := ⟨[tA, tB], [['x'], ['y']]⟩

theorem search_gdW_eval :
    search_glossary gdW ['a'] [] = .scored [⟨tA, 1⟩, ⟨tB, 1⟩] [['x'], ['y']] := by
  have hfa : fuzzy_match_score ['a'] ['a'] = 1 := by rw [fuzzy_match_score, if_pos rfl]
  have hsurv : survivors gdW ['a'] [] = [⟨tA, 1⟩, ⟨tB, 1⟩] := by
    norm_num [survivors, gdW, tA, tB, List.filterMap_cons, hfa]
  have hsort : sortScored [⟨tA, (1:ℚ)⟩, ⟨tB, 1⟩] = [⟨tA, 1⟩, ⟨tB, 1⟩] := by
    apply List.mergeSort_of_sorted
    simp [scoreOrder]
  rw [search_glossary, if_neg (by decide), if_neg (by decide),
    show pyStrip ['a'] = ['a'] from rfl, show pyStrip ([] : List Char) = [] from rfl,
    hsurv, hsort]
  rfl

/-- C2: every hit returned by the scoring path carries as `matchScore` the
maximum, not a sum or average, of the three per-field fuzzy scores weighted by
1.0 for the term field, 0.7 for the short definition and 0.5 for the detailed
definition. -/
theorem matchScore_weighted_max (gd : GlossaryData) (q cat : List Char)
    (rs : List ScoredTerm) (cats : List (List Char))
    (h : search_glossary gd q cat = .scored rs cats) :
    ∀ r ∈ rs, r.matchScore =
      max (max (fuzzy_match_score (pyStrip q) r.term.term)
               (fuzzy_match_score (pyStrip q) r.term.shortDefinition * (7/10)))
          (fuzzy_match_score (pyStrip q) r.term.detailedDefinition * (5/10)) := by
  intro r hr
  exact (of_mem_survivors (mem_scored_results h hr)).2.1

/-- Witness for C2 on the concrete two-term corpus. -/
theorem matchScore_weighted_max_inst :
    search_glossary gdW ['a'] [] = .scored [⟨tA, 1⟩, ⟨tB, 1⟩] [['x'], ['y']] ∧
    (⟨tA, 1⟩ : ScoredTerm).matchScore =
      max (max (fuzzy_match_score (pyStrip ['a']) (⟨tA, 1⟩ : ScoredTerm).term.term)
               (fuzzy_match_score (pyStrip ['a'])
                 (⟨tA, 1⟩ : ScoredTerm).term.shortDefinition * (7/10)))
          (fuzzy_match_score (pyStrip ['a'])
            (⟨tA, 1⟩ : ScoredTerm).term.detailedDefinition * (5/10)) :=
  ⟨search_gdW_eval,
    matchScore_weighted_max gdW ['a'] [] _ _ search_gdW_eval ⟨tA, 1⟩ (by simp)⟩

/-- C3 (amended): every hit returned by the scoring path has a match score
strictly greater than 0.3, and the scoring path returns at most 20 hits. The
empty-trimmed-query fallback is exempt: it returns the full (category-filtered)
term list, which may exceed 20 entries. -/
theorem scored_results_above_threshold (gd : GlossaryData) (q cat : List Char)
    (rs : List ScoredTerm) (cats : List (List Char))
    (h : search_glossary gd q cat = .scored rs cats) :
    (∀ r ∈ rs, (3/10 : ℚ) < r.matchScore) ∧ rs.length ≤ 20 := by
  constructor
  · intro r hr
    exact (of_mem_survivors (mem_scored_results h hr)).2.2.1
  · obtain ⟨-, -, hrs, -⟩ := search_scored_inv h
    subst hrs
    exact List.length_take_le _ _

/-- Witness for C3 on the concrete two-term corpus. -/
theorem scored_results_above_threshold_inst :
    search_glossary gdW ['a'] [] = .scored [⟨tA, 1⟩, ⟨tB, 1⟩] [['x'], ['y']] ∧
    (∀ r ∈ [(⟨tA, 1⟩ : ScoredTerm), ⟨tB, 1⟩], (3/10 : ℚ) < r.matchScore) ∧
    [(⟨tA, 1⟩ : ScoredTerm), ⟨tB, 1⟩].length ≤ 20 :=
  ⟨search_gdW_eval,
    scored_results_above_threshold gdW ['a'] [] _ _ search_gdW_eval⟩

/-- A one-letter term record for building a large corpus. -/
def mkTerm (c : Char) : Term := ⟨[c], [c], [c], [c], [c]⟩

/-- A corpus with 21 terms. -/
def gd21 : GlossaryData := ⟨"abcdefghijklmnopqrstu".toList.map mkTerm, []⟩

/-- Counterexample for C3: with 21 terms and an empty query, the search
endpoint returns all 21 terms; the 20-entry truncation does not apply to the
empty-query fallback, so the returned set of terms can exceed 20 entries. -/
theorem search_truncation_cex :
    search_glossary gd21 [] [] = .listing gd21.terms gd21.categories ∧
    20 < gd21.terms.length := by
  constructor
  · rw [search_glossary, if_neg (by decide),
      if_pos (show pyStrip ([] : List Char) = [] from rfl), if_neg (by decide)]
  · decide

/-- C4: for a non-empty trimmed query the search response is the 20-element
truncation of a ranking of the surviving hits that is sorted by match score in
descending order and that, on every score class, coincides with the
corpus-order survivor list (stability: equal scores keep corpus order); the
survivor list itself is a sublist of the corpus. -/
theorem search_ranking_sorted_stable (gd : GlossaryData) (q cat : List Char)
    (hne : gd.terms ≠ []) (hq : pyStrip q ≠ []) :
    search_glossary gd q cat =
      .scored ((sortScored (survivors gd (pyStrip q) (pyStrip cat))).take 20)
        gd.categories ∧
    (sortScored (survivors gd (pyStrip q) (pyStrip cat))).Pairwise
      (fun a b => b.matchScore ≤ a.matchScore) ∧
    (∀ s : ℚ,
      (sortScored (survivors gd (pyStrip q) (pyStrip cat))).filter
          (fun r => decide (r.matchScore = s)) =
        (survivors gd (pyStrip q) (pyStrip cat)).filter
          (fun r => decide (r.matchScore = s))) ∧
    List.Sublist ((survivors gd (pyStrip q) (pyStrip cat)).map ScoredTerm.term)
      gd.terms := by
  refine ⟨?_, sortScored_sorted _, fun s => sortScored_filter_eq _ s,
    survivors_map_sublist gd _ _⟩
  rw [search_glossary, if_neg hne, if_neg hq]

/-- Witness for C4 on the concrete two-term corpus, with score class 1. -/
theorem search_ranking_sorted_stable_inst :
    (gdW.terms ≠ [] ∧ pyStrip ['a'] ≠ []) ∧
    search_glossary gdW ['a'] [] =
      .scored ((sortScored (survivors gdW (pyStrip ['a']) (pyStrip []))).take 20)
        gdW.categories ∧
    (sortScored (survivors gdW (pyStrip ['a']) (pyStrip []))).filter
        (fun r => decide (r.matchScore = 1)) =
      (survivors gdW (pyStrip ['a']) (pyStrip [])).filter
        (fun r => decide (r.matchScore = 1)) :=
  ⟨⟨by decide, by decide⟩,
    (search_ranking_sorted_stable gdW ['a'] [] (by decide) (by decide)).1,
    (search_ranking_sorted_stable gdW ['a'] [] (by decide) (by decide)).2.2.1 1⟩

theorem pyStrip_eq_nil_of_whitespace {q : List Char}
    (h : ∀ c ∈ q, c.isWhitespace = true) : pyStrip q = [] := by
  unfold pyStrip
  rw [List.dropWhile_eq_nil_iff.mpr (fun c hc => h c hc)]
  rfl

/-- A term whose every field is the single letter m. -/
def tM : Term := ⟨['m'], ['m'], ['m'], ['m'], ['m']⟩

/-- A one-term corpus in category m. -/
def gdM : GlossaryData := ⟨[tM], [['m']]⟩

/-- Counterexample for C6: the code strips the category parameter before
comparing, so searching with the category filter "m " (trailing space) returns
a term whose stored category is "m", which is not equal to the filter as
given. -/
theorem category_untrimmed_cex :
    search_glossary gdM ['m'] ['m', ' '] = .scored [⟨tM, 1⟩] [['m']] ∧
    tM.category ≠ ['m', ' '] := by
  constructor
  · have hfm : fuzzy_match_score ['m'] ['m'] = 1 := by rw [fuzzy_match_score, if_pos rfl]
    have hsurv : survivors gdM ['m'] ['m'] = [⟨tM, 1⟩] := by
      norm_num [survivors, gdM, tM, List.filterMap_cons, hfm]
    have hsort : sortScored [⟨tM, (1:ℚ)⟩] = [⟨tM, 1⟩] := by
      apply List.mergeSort_of_sorted
      simp
    rw [search_glossary, if_neg (by decide), if_neg (by decide),
      show pyStrip ['m'] = ['m'] from rfl, show pyStrip ['m', ' '] = ['m'] from rfl,
      hsurv, hsort]
    rfl
  · decide

/-- C6 (amended): with a non-empty trimmed category filter, every term
returned by search (on either path) is a corpus entry whose category equals
the trimmed filter exactly (case-sensitive), and a filter matching no corpus
category yields an empty result list, not an error. -/
theorem category_filter_matches_trimmed (gd : GlossaryData) (q cat : List Char)
    (hne : gd.terms ≠ []) (hcat : pyStrip cat ≠ []) :
    ∃ ts : List Term, returnedTerms (search_glossary gd q cat) = some ts ∧
      (∀ t ∈ ts, t ∈ gd.terms ∧ t.category = pyStrip cat) ∧
      ((∀ t ∈ gd.terms, t.category ≠ pyStrip cat) → ts = []) := by
  by_cases hq : pyStrip q = []
  · refine ⟨gd.terms.filter (fun t => decide (t.category = pyStrip cat)), ?_, ?_, ?_⟩
    · rw [search_glossary, if_neg hne, if_pos hq, if_pos hcat]
      rfl
    · intro t ht
      rw [List.mem_filter] at ht
      exact ⟨ht.1, by simpa using ht.2⟩
    · intro hnone
      apply List.filter_eq_nil_iff.mpr
      intro t ht
      simpa using hnone t ht
  · refine ⟨((sortScored (survivors gd (pyStrip q) (pyStrip cat))).take 20).map
      ScoredTerm.term, ?_, ?_, ?_⟩
    · rw [search_glossary, if_neg hne, if_neg hq]
      rfl
    · intro t ht
      rw [List.mem_map] at ht
      obtain ⟨r, hr, hrt⟩ := ht
      have hmem : r ∈ survivors gd (pyStrip q) (pyStrip cat) := by
        have h1 := List.mem_of_mem_take hr
        rw [sortScored, List.mem_mergeSort] at h1
        exact h1
      have hsv := of_mem_survivors hmem
      exact hrt ▸ ⟨hsv.1, hsv.2.2.2 hcat⟩
    · intro hnone
      have hsurv : survivors gd (pyStrip q) (pyStrip cat) = [] := by
        unfold survivors
        apply List.filterMap_eq_nil_iff.mpr
        intro t ht
        rw [if_pos ⟨hcat, hnone t ht⟩]
      rw [hsurv]
      simp [sortScored]
  

/-- Witness for C6 (amended) on the two-term corpus with filter x. -/
theorem category_filter_matches_trimmed_inst :
    (gdW.terms ≠ [] ∧ pyStrip ['x'] ≠ []) ∧
    (∃ ts : List Term, returnedTerms (search_glossary gdW ['a'] ['x']) = some ts ∧
      (∀ t ∈ ts, t ∈ gdW.terms ∧ t.category = pyStrip ['x']) ∧
      ((∀ t ∈ gdW.terms, t.category ≠ pyStrip ['x']) → ts = [])) :=
  ⟨⟨by decide, by decide⟩,
    category_filter_matches_trimmed gdW ['a'] ['x'] (by decide) (by decide)⟩

theorem find?_first {p : Term → Bool} :
    ∀ {l : List Term} {t : Term}, l.find? p = some t →
      p t = true ∧ ∃ pre post, l = pre ++ t :: post ∧ ∀ u ∈ pre, p u = false := by
  intro l
  induction l with
  | nil => intro t h; cases h
  | cons a l ih =>
    intro t h
    cases hpa : p a with
    | true =>
      rw [List.find?_cons_of_pos _ hpa] at h
      cases h
      exact ⟨hpa, [], l, rfl, by simp⟩
    | false =>
      rw [List.find?_cons_of_neg _ (by simp [hpa])] at h
      obtain ⟨hpt, pre, post, hl, hpre⟩ := ih h
      refine ⟨hpt, a :: pre, post, by simp [hl], ?_⟩
      intro u hu
      rcases List.mem_cons.mp hu with h1 | h1
      · rw [h1]; exact hpa
      · exact hpre u h1

/-- C7: with a non-empty corpus, getTerm returns the first term in corpus
order whose id equals the requested one; when no term matches it signals the
not-found result, which is distinct from the corpus-unavailable result. -/
theorem get_term_first_match (gd : GlossaryData) (i : List Char)
    (hne : gd.terms ≠ []) :
    ((∀ t ∈ gd.terms, t.id ≠ i) → get_term gd i = .notFound) ∧
    (∀ t : Term, get_term gd i = .found t →
      t.id = i ∧ ∃ pre post, gd.terms = pre ++ t :: post ∧ ∀ u ∈ pre, u.id ≠ i) ∧
    ((∃ t ∈ gd.terms, t.id = i) → ∃ t : Term, get_term gd i = .found t) ∧
    get_term gd i ≠ .unavailable := by
  unfold get_term
  rw [if_neg hne]
  refine ⟨?_, ?_, ?_, ?_⟩
  · intro hall
    have hf : gd.terms.find? (fun t => decide (t.id = i)) = none :=
      List.find?_eq_none.mpr (fun t ht => by simpa using hall t ht)
    rw [hf]
  · intro t ht
    cases hf : gd.terms.find? (fun t => decide (t.id = i)) with
    | none => rw [hf] at ht; cases ht
    | some u =>
      rw [hf] at ht
      cases ht
      obtain ⟨hpt, pre, post, hl, hpre⟩ := find?_first hf
      refine ⟨by simpa using hpt, pre, post, hl, ?_⟩
      intro u hu
      simpa using hpre u hu
  · intro hex
    obtain ⟨t, ht, hid⟩ := hex
    cases hf : gd.terms.find? (fun t => decide (t.id = i)) with
    | none =>
      exfalso
      have hc := List.find?_eq_none.mp hf t ht
      simp [hid] at hc
    | some u => exact ⟨u, rfl⟩
  · cases hf : gd.terms.find? (fun t => decide (t.id = i)) <;> simp [hf]

/-- Witness for C7 on the two-term corpus: id 2 is found, id 9 is not found
(and neither outcome is the unavailable error). -/
theorem get_term_first_match_inst :
    gdW.terms ≠ [] ∧
    (∃ t : Term, get_term gdW ['2'] = .found t) ∧
    get_term gdW ['2'] ≠ .unavailable ∧
    get_term gdW ['9'] = .notFound :=
  ⟨by decide,
    (get_term_first_match gdW ['2'] (by decide)).2.2.1 ⟨tB, by decide, by decide⟩,
    (get_term_first_match gdW ['2'] (by decide)).2.2.2,
    (get_term_first_match gdW ['9'] (by decide)).1 (by decide)⟩

/-- The empty corpus, as produced by a successfully parsed but empty source. -/
def emptyGd : GlossaryData := ⟨[], []⟩

/-- Counterexample for C8: a load that succeeds with an empty term list is not
a load failure, yet the engine still degrades to the empty corpus state and
answers every search and getTerm call with the unavailable server error, so
the unavailable behaviour is not equivalent to load failure. -/
theorem corpus_unavailable_iff_cex :
    (some emptyGd : Option GlossaryData) ≠ none ∧
    glossaryFromLoad (some emptyGd) = ⟨[], []⟩ ∧
    search_glossary (glossaryFromLoad (some emptyGd)) ['a'] [] = .unavailable ∧
    get_term (glossaryFromLoad (some emptyGd)) ['a'] = .unavailable := by
  refine ⟨by simp, rfl, ?_, ?_⟩ <;> decide

/-- C8 (amended): a failed load degrades to the empty corpus without
crashing, and search and getTerm return the unavailable server error exactly
when the term list is empty; in particular they do so after a failed load,
but also when a successfully loaded source contains no terms. -/
theorem corpus_error_iff_empty_terms (load : Option GlossaryData)
    (q cat i : List Char) :
    (load = none → glossaryFromLoad load = ⟨[], []⟩) ∧
    (search_glossary (glossaryFromLoad load) q cat = .unavailable ↔
      (glossaryFromLoad load).terms = []) ∧
    (get_term (glossaryFromLoad load) i = .unavailable ↔
      (glossaryFromLoad load).terms = []) := by
  refine ⟨?_, ?_, ?_⟩
  · intro h
    rw [h]
    rfl
  · generalize glossaryFromLoad load = gd
    unfold search_glossary
    by_cases h : gd.terms = []
    · simp [h]
    · rw [if_neg h]
      constructor
      · intro hcon
        by_cases h2 : pyStrip q = []
        · rw [if_pos h2] at hcon; cases hcon
        · rw [if_neg h2] at hcon; cases hcon
      · intro h2
        exact absurd h2 h
  · generalize glossaryFromLoad load = gd
    unfold get_term
    by_cases h : gd.terms = []
    · simp [h]
    · rw [if_neg h]
      constructor
      · intro hcon
        cases hf : gd.terms.find? (fun t => decide (t.id = i)) with
        | none => simp [hf] at hcon
        | some u => simp [hf] at hcon
      · intro h2
        exact absurd h2 h

/-- Witness for C8 (amended) at a failed load. -/
theorem corpus_error_iff_empty_terms_inst :
    glossaryFromLoad none = ⟨[], []⟩ ∧
    (search_glossary (glossaryFromLoad none) ['a'] [] = .unavailable ↔
      (glossaryFromLoad none).terms = []) ∧
    (get_term (glossaryFromLoad none) ['a'] = .unavailable ↔
      (glossaryFromLoad none).terms = []) :=
  ⟨(corpus_error_iff_empty_terms none ['a'] [] ['a']).1 rfl,
    (corpus_error_iff_empty_terms none ['a'] [] ['a']).2.1,
    (corpus_error_iff_empty_terms none ['a'] [] ['a']).2.2⟩

theorem runRequests_id : ∀ (reqs : List Request) (gd : GlossaryData),
    runRequests gd reqs = gd
  | [], _ => rfl
  | r :: l, gd => by
    have h1 : (handle gd r).1 = gd := by cases r <;> rfl
    show runRequests (handle gd r).1 l = gd
    rw [h1]
    exact runRequests_id l gd

/-- C9: no sequence of search and getTerm requests changes the loaded corpus
(term list and category list are untouched), every scored hit is a fresh
record whose stored part is literally a corpus entry, and the corpus entries
themselves never receive a match score (the `Term` record has no such field;
scores live only in the transient `ScoredTerm` records of a response). -/
theorem corpus_never_mutated (gd : GlossaryData) (reqs : List Request) :
    runRequests gd reqs = gd ∧
    (∀ q cat rs cats, search_glossary gd q cat = .scored rs cats →
      ∀ r ∈ rs, r.term ∈ gd.terms) ∧
    (∀ q cat ts cats, search_glossary gd q cat = .listing ts cats →
      ∀ t ∈ ts, t ∈ gd.terms) := by
  refine ⟨runRequests_id reqs gd, ?_, ?_⟩
  · intro q cat rs cats h r hr
    exact (of_mem_survivors (mem_scored_results h hr)).1
  · intro q cat ts cats h t ht
    obtain ⟨-, -, hts, -⟩ := search_listing_inv h
    subst hts
    by_cases hcat : pyStrip cat ≠ []
    · rw [if_pos hcat] at ht
      exact (List.mem_filter.mp ht).1
    · rw [if_neg hcat] at ht
      exact ht

/-- Witness for C9: a search followed by a term lookup leaves the two-term
corpus unchanged, and the first hit of the concrete search is a corpus
entry. -/
theorem corpus_never_mutated_inst :
    runRequests gdW [Request.searchReq ['a'] [], Request.termReq ['1']] = gdW ∧
    search_glossary gdW ['a'] [] = .scored [⟨tA, 1⟩, ⟨tB, 1⟩] [['x'], ['y']] ∧
    (⟨tA, 1⟩ : ScoredTerm).term ∈ gdW.terms :=
  ⟨(corpus_never_mutated gdW [Request.searchReq ['a'] [], Request.termReq ['1']]).1,
    search_gdW_eval,
    (corpus_never_mutated gdW []).2.1 ['a'] [] _ _ search_gdW_eval ⟨tA, 1⟩ (by simp)⟩

/-- C10: with an available corpus, an empty trimmed query makes search return
the raw corpus `Term` records (the listing shape, which has no match score
field), while a non-empty trimmed query makes it return `ScoredTerm` records,
each of which carries a `matchScore`; the two paths produce responses of
different shapes. -/
theorem search_result_shape (gd : GlossaryData) (q cat : List Char)
    (hne : gd.terms ≠ []) :
    (pyStrip q = [] → ∃ ts, search_glossary gd q cat = .listing ts gd.categories ∧
      ∀ t ∈ ts, t ∈ gd.terms) ∧
    (pyStrip q ≠ [] → ∃ rs, search_glossary gd q cat = .scored rs gd.categories) := by
  constructor
  · intro hq
    refine ⟨_, by rw [search_glossary, if_neg hne, if_pos hq], ?_⟩
    intro t ht
    by_cases hcat : pyStrip cat ≠ []
    · rw [if_pos hcat] at ht
      exact (List.mem_filter.mp ht).1
    · rw [if_neg hcat] at ht
      exact ht
  · intro hq
    exact ⟨_, by rw [search_glossary, if_neg hne, if_neg hq]⟩

/-- Witness for C10: on the two-term corpus, a space-only query yields the
listing shape and the query a yields the scored shape. -/
theorem search_result_shape_inst :
    (gdW.terms ≠ [] ∧ pyStrip [' '] = [] ∧ pyStrip ['a'] ≠ []) ∧
    (∃ ts, search_glossary gdW [' '] [] = .listing ts gdW.categories ∧
      ∀ t ∈ ts, t ∈ gdW.terms) ∧
    (∃ rs, search_glossary gdW ['a'] [] = .scored rs gdW.categories) :=
  ⟨⟨by decide, by decide, by decide⟩,
    (search_result_shape gdW [' '] [] (by decide)).1 (by decide),
    (search_result_shape gdW ['a'] [] (by decide)).2 (by decide)⟩

/-- Counterexample for C5: search and listTerms do not coincide on every
category filter. On a one-term corpus of category m, the search endpoint
strips the category parameter, so an empty query with the filter "m "
(trailing space) returns the term, while listTerms per the spec compares
against "m " exactly and returns nothing. On an empty term list, search
returns the unavailable server error while listTerms, which has no error
conditions, returns an empty listing. -/
theorem search_blank_neq_listTerms_cex :
    search_glossary gdM [] ['m', ' '] = .listing [tM] [['m']] ∧
    listTerms_spec gdM ['m', ' '] = .listing [] [['m']] ∧
    search_glossary gdM [] ['m', ' '] ≠ listTerms_spec gdM ['m', ' '] ∧
    search_glossary emptyGd [] [] = .unavailable ∧
    listTerms_spec emptyGd [] = .listing [] [] ∧
    search_glossary emptyGd [] [] ≠ listTerms_spec emptyGd [] := by
  refine ⟨?_, ?_, ?_, ?_, ?_, ?_⟩ <;> decide

/-- C5 (amended): a query consisting only of whitespace (or empty) is trimmed
to emptiness and, on a corpus with a non-empty term list, makes search behave
identically to listTerms applied to the whitespace-trimmed category filter:
all terms (filtered by the trimmed category if non-empty) in corpus order, not
an error. With an empty term list search instead returns the unavailable
server error, and an untrimmed category filter is compared only after
trimming. -/
theorem search_blank_query_eq_listTerms (gd : GlossaryData) (q cat : List Char)
    (h : ∀ c ∈ q, c.isWhitespace = true) (hne : gd.terms ≠ []) :
    search_glossary gd q cat = listTerms_spec gd (pyStrip cat) := by
  have hq : pyStrip q = [] := pyStrip_eq_nil_of_whitespace h
  unfold search_glossary listTerms_spec
  rw [if_neg hne, if_pos hq]

/-- Witness for C5 (amended) with a one-space query and the untrimmed
category filter "x " on the two-term corpus. -/
theorem search_blank_query_eq_listTerms_inst :
    ((∀ c ∈ [' '], c.isWhitespace = true) ∧ gdW.terms ≠ []) ∧
    search_glossary gdW [' '] ['x', ' '] = listTerms_spec gdW (pyStrip ['x', ' ']) :=
  ⟨⟨by decide, by decide⟩,
    search_blank_query_eq_listTerms gdW [' '] ['x', ' '] (by decide) (by decide)⟩
